import Mathlib

/-!
Verification of the smart_pet_bowl repository's Python sources
(`Camera.py`, `DataHandler.py`, `food_monitor.py`) through a shallow
embedding in Lean.  Machine integers are modelled by `Nat`/`Int` with
explicit reductions where overflow matters, Python floats used only in
order comparisons by `ℚ`, and Python's `None`/`bool` return values by a
small `PyRet` type.
-/

namespace SmartPetBowl

/-! ### FileAccess.file_access_upload (Camera.py 126-265)

The upload routine reads the whole file, computes
`write_iterations = n // b + (0 if n % b == 0 else 1)`, builds the list
`sections = [b, 2*b, ...]` (the loop over `range(write_iterations)`
skipping `num == 0`), splits the data with `np.array_split(file_data,
sections)` and writes `split_data[i]` for `i in range(write_iterations)`.
-/

/-- Camera.py 193-194: number of write operations,
`(total_bytes_to_write // intermediate_buffer_size) +
 (0 if ((total_bytes_to_write % intermediate_buffer_size) == 0) else 1)`. -/
def write_iterations (n b : Nat) : Nat :=
  n / b + (if n % b = 0 then 0 else 1)

/-- Camera.py 209-214: the split points accumulated by
`for index in range(write_iterations): num = index * b;
 if num == 0: continue; sections.append(num)`. -/
def sectionsList (wi b : Nat) : List Nat :=
  ((List.range wi).map (fun index => index * b)).filter (fun num => num != 0)

/-- `np.array_split(data, indices)` for a sorted index list: the data is cut
at each listed index (indices are relative to the start of `data`, hence the
shift by `i` in the recursive call). -/
def splitAtIndices : List Nat → List Nat → List (List Nat)
  | data, [] => [data]
  | data, i :: rest =>
      data.take i :: splitAtIndices (data.drop i) (rest.map (fun j => j - i))
termination_by _ secs => secs.length
decreasing_by simp_wf

/-- Camera.py 208-220: the sequence of chunks handed to
`cam.FileAccessBuffer.Set` by the write loop: `split_data[i]` for
`i in range(write_iterations)`. -/
def uploadChunks (data : List Nat) (b : Nat) : List (List Nat) :=
  (splitAtIndices data (sectionsList (write_iterations data.length b) b)).take
    (write_iterations data.length b)

/-- Mathematical ceiling division, the spec's `ceil(n/b)`. -/
def ceilDiv (n b : Nat) : Nat := (n + b - 1) / b

/-- Straightforward chunking of a list into pieces of size `b`
(proof-side reference shape for the chunk sequence). -/
def chunkList (b : Nat) : List Nat → List (List Nat)
  | [] => []
  | x :: xs => (x :: xs.take (b - 1)) :: chunkList b (xs.drop (b - 1))
termination_by l => l.length
decreasing_by
  simp_wf
  have hd := List.length_drop (b - 1) xs
  omega

/-- Helper: the nonzero split points `[b, 2*b, ..., m*b]`. -/
def genSecs (m b : Nat) : List Nat :=
  (List.range m).map (fun i => (i + 1) * b)

theorem sectionsList_eq_genSecs (wi b : Nat) (hb : 0 < b) :
    sectionsList wi b = genSecs (wi - 1) b := by
  cases wi with
  | zero => simp [sectionsList, genSecs]
  | succ m =>
      unfold sectionsList genSecs
      rw [List.range_succ_eq_map]
      simp only [List.map_cons, Nat.zero_mul, List.map_map]
      rw [List.filter_cons]
      simp only [bne_self_eq_false, Bool.false_eq_true, if_false, Nat.succ_sub_one]
      rw [List.filter_eq_self.mpr]
      · congr 1
      · intro a ha
        simp only [List.mem_map, Function.comp] at ha
        obtain ⟨i, _, rfl⟩ := ha
        simp only [bne_iff_ne, ne_eq]
        exact Nat.mul_ne_zero (Nat.succ_ne_zero i) (Nat.pos_iff_ne_zero.mp hb)

theorem genSecs_succ (m b : Nat) :
    genSecs (m + 1) b = b :: (genSecs m b).map (fun x => x + b) := by
  unfold genSecs
  rw [List.range_succ_eq_map]
  simp only [List.map_cons, Nat.zero_add, Nat.one_mul, List.map_map]
  congr 1
  apply List.map_congr_left
  intro i _
  simp only [Function.comp_apply, Nat.succ_eq_add_one]
  ring

theorem chunkList_cons (b : Nat) (hb : 0 < b) (x : Nat) (xs : List Nat) :
    chunkList b (x :: xs) = (x :: xs).take b :: chunkList b ((x :: xs).drop b) := by
  obtain ⟨k, rfl⟩ : ∃ k, b = k + 1 := ⟨b - 1, (Nat.succ_pred_eq_of_pos hb).symm⟩
  simp only [chunkList, Nat.add_sub_cancel, List.take_succ_cons, List.drop_succ_cons]

theorem write_iterations_eq_ceilDiv (n b : Nat) (hb : 0 < b) :
    write_iterations n b = ceilDiv n b := by
  have hdm := Nat.div_add_mod n b
  have hlt := Nat.mod_lt n hb
  unfold write_iterations ceilDiv
  rcases Nat.eq_zero_or_pos (n % b) with h | h
  · rw [if_pos h]
    have hn : n + b - 1 = (b - 1) + b * (n / b) := by omega
    rw [hn, Nat.add_mul_div_left _ _ hb,
      Nat.div_eq_of_lt (show b - 1 < b by omega)]
    omega
  · rw [if_neg (by omega)]
    have hmul : b * (n / b + 1) = b * (n / b) + b := by ring
    have hn : n + b - 1 = (n % b - 1) + b * (n / b + 1) := by omega
    rw [hn, Nat.add_mul_div_left _ _ hb,
      Nat.div_eq_of_lt (show n % b - 1 < b by omega)]
    omega

theorem ceilDiv_zero_left (b : Nat) (hb : 0 < b) : ceilDiv 0 b = 0 := by
  unfold ceilDiv
  exact Nat.div_eq_of_lt (by omega)

theorem ceilDiv_sub (b n : Nat) (hb : 0 < b) (hn : 0 < n) :
    ceilDiv n b = ceilDiv (n - b) b + 1 := by
  unfold ceilDiv
  rcases le_or_lt n b with h | h
  · have h1 : n - b = 0 := by omega
    have h2 : n + b - 1 = (n - 1) + b := by omega
    rw [h1, h2, Nat.add_div_right _ hb, Nat.div_eq_of_lt (by omega),
        Nat.div_eq_of_lt (by omega)]
  · have h2 : n + b - 1 = ((n - b) + b - 1) + b := by omega
    rw [h2, Nat.add_div_right _ hb]

theorem ceilDiv_bounds (n b : Nat) (hb : 0 < b) (hn : 0 < n) :
    (ceilDiv n b - 1) * b < n ∧ n ≤ ceilDiv n b * b := by
  unfold ceilDiv
  have h1 := Nat.div_add_mod (n + b - 1) b
  have h2 : (n + b - 1) % b < b := Nat.mod_lt _ hb
  have hq : 0 < (n + b - 1) / b := Nat.div_pos (by omega) hb
  have e1 : ((n + b - 1) / b) * b = b * ((n + b - 1) / b) := by ring
  have e2 : ((n + b - 1) / b - 1) * b + b = ((n + b - 1) / b) * b := by
    have h3 : (n + b - 1) / b - 1 + 1 = (n + b - 1) / b := by omega
    calc ((n + b - 1) / b - 1) * b + b = ((n + b - 1) / b - 1 + 1) * b := by ring
      _ = ((n + b - 1) / b) * b := by rw [h3]
  omega

theorem chunkList_length (b : Nat) (hb : 0 < b) :
    ∀ (n : Nat) (data : List Nat), data.length = n →
      (chunkList b data).length = ceilDiv data.length b := by
  intro n
  induction n using Nat.strong_induction_on with
  | _ n ih =>
    intro data hlen
    cases data with
    | nil => simp [chunkList, ceilDiv_zero_left b hb]
    | cons x xs =>
      rw [chunkList_cons b hb]
      have hlen' : ((x :: xs).drop b).length < n := by
        have hx : (x :: xs).length = xs.length + 1 := List.length_cons x xs
        rw [List.length_drop]
        omega
      rw [List.length_cons, ih _ hlen' _ rfl, List.length_drop]
      rw [ceilDiv_sub b (x :: xs).length hb (by simp)]

theorem chunkList_flatten (b : Nat) (hb : 0 < b) :
    ∀ (n : Nat) (data : List Nat), data.length = n →
      (chunkList b data).flatten = data := by
  intro n
  induction n using Nat.strong_induction_on with
  | _ n ih =>
    intro data hlen
    cases data with
    | nil => simp [chunkList]
    | cons x xs =>
      rw [chunkList_cons b hb]
      have hlen' : ((x :: xs).drop b).length < n := by
        have hx : (x :: xs).length = xs.length + 1 := List.length_cons x xs
        rw [List.length_drop]
        omega
      rw [List.flatten_cons, ih _ hlen' _ rfl, List.take_append_drop]

theorem chunkList_getD_length (b : Nat) (hb : 0 < b) :
    ∀ (n : Nat) (data : List Nat), data.length = n →
      ∀ i, i + 1 < (chunkList b data).length →
        ((chunkList b data).getD i []).length = b := by
  intro n
  induction n using Nat.strong_induction_on with
  | _ n ih =>
    intro data hlen i hi
    cases data with
    | nil => simp [chunkList] at hi
    | cons x xs =>
      rw [chunkList_cons b hb] at hi ⊢
      have hlen' : ((x :: xs).drop b).length < n := by
        have hx : (x :: xs).length = xs.length + 1 := List.length_cons x xs
        rw [List.length_drop]
        omega
      cases i with
      | zero =>
        simp only [List.getD_cons_zero]
        have hrest : 0 < (chunkList b ((x :: xs).drop b)).length := by
          simp only [List.length_cons] at hi
          omega
        rw [chunkList_length b hb _ _ rfl, List.length_drop] at hrest
        have hblt : b < (x :: xs).length := by
          by_contra hcon
          push_neg at hcon
          have : (x :: xs).length - b = 0 := by omega
          rw [this, ceilDiv_zero_left b hb] at hrest
          omega
        rw [List.length_take]
        omega
      | succ j =>
        simp only [List.getD_cons_succ]
        apply ih _ hlen' _ rfl
        simp only [List.length_cons] at hi
        omega

/-- `getLastD` of a nonempty list does not depend on the default. -/
theorem getLastD_indep {α : Type} (a : α) (l : List α) (d d' : α) :
    (a :: l).getLastD d = (a :: l).getLastD d' := rfl

theorem chunkList_getLastD_length (b : Nat) (hb : 0 < b) :
    ∀ (n : Nat) (data : List Nat), data.length = n → data ≠ [] →
      ((chunkList b data).getLastD []).length =
        data.length - b * (ceilDiv data.length b - 1) := by
  intro n
  induction n using Nat.strong_induction_on with
  | _ n ih =>
    intro data hlen hne
    cases data with
    | nil => exact absurd rfl hne
    | cons x xs =>
      rw [chunkList_cons b hb]
      have hlen' : ((x :: xs).drop b).length < n := by
        have hx : (x :: xs).length = xs.length + 1 := List.length_cons x xs
        rw [List.length_drop]
        omega
      rcases Nat.eq_zero_or_pos ((x :: xs).drop b).length with hz | hz
      · -- the whole list fits in a single chunk
        have hdropnil : (x :: xs).drop b = [] := List.length_eq_zero.mp hz
        rw [List.length_drop] at hz
        have hle : (x :: xs).length ≤ b := by omega
        rw [hdropnil]
        simp only [chunkList]
        have hsing : ([List.take b (x :: xs)].getLastD ([] : List Nat)) =
            List.take b (x :: xs) := rfl
        rw [hsing]
        have hceil : ceilDiv (x :: xs).length b = 1 := by
          rw [ceilDiv_sub b _ hb (by simp)]
          have : (x :: xs).length - b = 0 := by omega
          rw [this, ceilDiv_zero_left b hb]
        rw [hceil, List.length_take]
        simp only [Nat.sub_self, Nat.mul_zero, Nat.sub_zero]
        omega
      · -- there is at least one further chunk
        have hdropne : (x :: xs).drop b ≠ [] := by
          intro hcon
          rw [hcon] at hz
          simp at hz
        have hrestne : chunkList b ((x :: xs).drop b) ≠ [] := by
          intro hcon
          have := chunkList_length b hb _ ((x :: xs).drop b) rfl
          rw [hcon] at this
          simp only [List.length_nil] at this
          rw [ceilDiv_sub b _ hb hz, Nat.add_comm] at this
          omega
        obtain ⟨y, ys, hys⟩ := List.exists_cons_of_ne_nil hrestne
        rw [hys, List.getLastD_cons, getLastD_indep y ys _ ([] : List Nat), ← hys]
        rw [ih _ hlen' _ rfl hdropne]
        rw [List.length_drop] at hz ⊢
        have hblt : b < (x :: xs).length := by omega
        rw [ceilDiv_sub b (x :: xs).length hb (by simp), Nat.add_sub_cancel]
        have hc' : 0 < ceilDiv ((x :: xs).length - b) b := by
          rcases Nat.eq_zero_or_pos (ceilDiv ((x :: xs).length - b) b) with h' | h'
          · have := (ceilDiv_bounds ((x :: xs).length - b) b hb hz).2
            rw [h'] at this
            omega
          · exact h'
        have e1 : b * (ceilDiv ((x :: xs).length - b) b) =
            b * (ceilDiv ((x :: xs).length - b) b - 1) + b := by
          have h2 : ceilDiv ((x :: xs).length - b) b - 1 + 1 =
              ceilDiv ((x :: xs).length - b) b := by omega
          calc b * (ceilDiv ((x :: xs).length - b) b)
              = b * (ceilDiv ((x :: xs).length - b) b - 1 + 1) := by rw [h2]
            _ = b * (ceilDiv ((x :: xs).length - b) b - 1) + b := by ring
        omega

theorem splitAtIndices_genSecs (b : Nat) (hb : 0 < b) :
    ∀ (m : Nat) (data : List Nat), m * b < data.length →
      data.length ≤ (m + 1) * b →
      splitAtIndices data (genSecs m b) = chunkList b data := by
  intro m
  induction m with
  | zero =>
    intro data h1 h2
    cases data with
    | nil => simp at h1
    | cons x xs =>
      simp only [genSecs, List.range_zero, List.map_nil, splitAtIndices]
      rw [chunkList_cons b hb]
      have h2' : (x :: xs).length ≤ b := by omega
      rw [List.take_of_length_le h2', List.drop_eq_nil_of_le h2']
      simp [chunkList]
  | succ m ih =>
    intro data h1 h2
    rw [genSecs_succ]
    rw [splitAtIndices]
    have hmap : ((genSecs m b).map (fun x => x + b)).map (fun j => j - b) =
        genSecs m b := by
      rw [List.map_map]
      have hfun : ((fun j => j - b) ∘ fun x => x + b) = @id Nat := by
        funext x
        simp
      rw [hfun, List.map_id]
    rw [hmap]
    have hsb : (m + 1) * b = m * b + b := by ring
    have hsb2 : (m + 1 + 1) * b = (m + 1) * b + b := by ring
    have hblt : b < data.length := by omega
    obtain ⟨x, xs, hx⟩ := List.exists_cons_of_ne_nil
      (List.ne_nil_of_length_pos (by omega : 0 < data.length))
    rw [hx] at hblt ⊢
    rw [chunkList_cons b hb]
    congr 1
    apply ih
    · rw [List.length_drop]
      rw [hx] at h1
      omega
    · rw [List.length_drop]
      rw [hx] at h2
      omega

theorem uploadChunks_eq_chunkList (data : List Nat) (b : Nat) (hb : 0 < b) :
    uploadChunks data b = chunkList b data := by
  unfold uploadChunks
  rcases Nat.eq_zero_or_pos data.length with h0 | h0
  · have hnil : data = [] := List.length_eq_zero.mp h0
    subst hnil
    simp [write_iterations, sectionsList, splitAtIndices, chunkList]
  · have hwi := write_iterations_eq_ceilDiv data.length b hb
    have hwipos : 0 < write_iterations data.length b := by
      rw [hwi]
      rcases Nat.eq_zero_or_pos (ceilDiv data.length b) with h' | h'
      · have := (ceilDiv_bounds data.length b hb h0).2
        rw [h'] at this
        omega
      · exact h'
    rw [sectionsList_eq_genSecs _ _ hb]
    rw [splitAtIndices_genSecs b hb (write_iterations data.length b - 1) data
      (by rw [hwi]; exact (ceilDiv_bounds data.length b hb h0).1)
      (by
        have : write_iterations data.length b - 1 + 1 =
            write_iterations data.length b := by omega
        rw [this, hwi]
        exact (ceilDiv_bounds data.length b hb h0).2)]
    apply List.take_of_length_le
    rw [chunkList_length b hb _ data rfl, hwi]

/-- C1: in `FileAccess.file_access_upload`, for every input file of `n ≥ 0`
bytes and every camera buffer size `b > 0` (`FileAccessLength`), the file data
is split into exactly `ceil(n/b)` chunks, every chunk except possibly the
last has length exactly `b`, the last chunk (when the file is nonempty) has
length `n - b*(ceil(n/b)-1)`, and the concatenation of the chunks in order
equals the original file bytes. -/
theorem file_access_upload_chunking (data : List Nat) (b : Nat) (hb : 0 < b) :
    (uploadChunks data b).length = ceilDiv data.length b ∧
    (∀ i, i + 1 < (uploadChunks data b).length →
      ((uploadChunks data b).getD i []).length = b) ∧
    (data ≠ [] →
      ((uploadChunks data b).getLastD []).length =
        data.length - b * (ceilDiv data.length b - 1)) ∧
    (uploadChunks data b).flatten = data := by
  rw [uploadChunks_eq_chunkList data b hb]
  exact ⟨chunkList_length b hb _ data rfl,
    fun i hi => chunkList_getD_length b hb _ data rfl i hi,
    fun hne => chunkList_getLastD_length b hb _ data rfl hne,
    chunkList_flatten b hb _ data rfl⟩

/-- Witness for C1 at a concrete input: a 5-byte file with buffer size 2. -/
theorem file_access_upload_chunking_witness :
    0 < 2 ∧
    ((uploadChunks [10, 20, 30, 40, 50] 2).length =
        ceilDiv (List.length [10, 20, 30, 40, 50]) 2 ∧
      (∀ i, i + 1 < (uploadChunks [10, 20, 30, 40, 50] 2).length →
        ((uploadChunks [10, 20, 30, 40, 50] 2).getD i []).length = 2) ∧
      ([10, 20, 30, 40, 50] ≠ ([] : List Nat) →
        ((uploadChunks [10, 20, 30, 40, 50] 2).getLastD []).length =
          List.length [10, 20, 30, 40, 50] -
            2 * (ceilDiv (List.length [10, 20, 30, 40, 50]) 2 - 1)) ∧
      (uploadChunks [10, 20, 30, 40, 50] 2).flatten = [10, 20, 30, 40, 50]) :=
  ⟨by decide, file_access_upload_chunking [10, 20, 30, 40, 50] 2 (by decide)⟩

/-! ### FileAccess.file_access_upload: control flow and error handling -/

/-- Status environment for one call of `FileAccess.file_access_upload`
(Camera.py 142-265).  Each `Bool` models whether the corresponding camera
operation or node check succeeds; `false` stands for a non-success
`FileOperationStatus` or for a raised `SpinnakerException` (both make the
helper in question report failure). -/
structure CamEnv where
  /-- Camera.py 149: `FileSelector.GetAccessMode()` is neither NA nor NI. -/
  selectorSupported : Bool
  /-- Camera.py 153-155: the FileSelector node is available and writable. -/
  selectorNodeOk : Bool
  /-- Camera.py 157-159: the selector entry is available and readable. -/
  selectorEntryOk : Bool
  /-- Camera.py 165: the value of `cam.FileSize`. -/
  fileSize : Nat
  /-- Camera.py 166-168: `execute_delete_command` succeeds. -/
  deleteOk : Bool
  /-- Camera.py 171-172: `open_file_to_write` succeeds. -/
  openOk : Bool
  /-- Camera.py 175: the current `FileAccessLength` is smaller than the
  `FileAccessBuffer` length, so a `SetValue` is attempted. -/
  needLenIncrease : Bool
  /-- Camera.py 176-179: that `SetValue` does not raise. -/
  setLenOk : Bool
  /-- Camera.py 231-233: `execute_write_command` succeeds on iteration `i`. -/
  writeOk : Nat → Bool
  /-- Camera.py 251-252: `close_file` succeeds. -/
  closeOk : Bool

/-- Camera.py 218-246: the write loop body over a list of iteration indices.
Returns whether every issued write command succeeded, and how many write
commands were issued: a failed `execute_write_command` raises
`FileAccessError`, so the loop stops right after it. -/
def uploadLoopIdx (env : CamEnv) : List Nat → Bool × Nat
  | [] => (true, 0)
  | i :: rest =>
      if env.writeOk i then
        let r := uploadLoopIdx env rest
        (r.1, r.2 + 1)
      else
        (false, 1)

/-- Camera.py 218: `for i in range(write_iterations)`. -/
def uploadLoop (env : CamEnv) (wi : Nat) : Bool × Nat :=
  uploadLoopIdx env (List.range wi)

/-- Camera.py 142-265: `FileAccess.file_access_upload`, returning the Python
result together with the number of write commands issued.  Every failure path
raises `FileAccessError`, which the surrounding `try` converts into
`result = False`; any other exception is caught by `except Exception`, so the
function returns a plain boolean on every input (modelled by totality). -/
def file_access_upload (env : CamEnv) (n b : Nat) : Bool × Nat :=
  if env.selectorSupported = false then (false, 0)
  else if env.selectorNodeOk = false then (false, 0)
  else if env.selectorEntryOk = false then (false, 0)
  else if 0 < env.fileSize ∧ env.deleteOk = false then (false, 0)
  else if env.openOk = false then (false, 0)
  else if env.needLenIncrease = true ∧ env.setLenOk = false then (false, 0)
  else
    let loopResult := uploadLoop env (write_iterations n b)
    if loopResult.1 = false then (false, loopResult.2)
    else if env.closeOk = false then (false, loopResult.2)
    else (true, loopResult.2)

theorem uploadLoopIdx_all_ok (env : CamEnv) :
    ∀ l : List Nat, (∀ i ∈ l, env.writeOk i = true) →
      uploadLoopIdx env l = (true, l.length) := by
  intro l
  induction l with
  | nil => intro _; rfl
  | cons a rest ih =>
    intro h
    have ha : env.writeOk a = true := h a (List.mem_cons_self a rest)
    simp only [uploadLoopIdx, ha, if_true]
    rw [ih (fun i hi => h i (List.mem_cons_of_mem a hi))]
    rfl

theorem uploadLoopIdx_fst_iff (env : CamEnv) :
    ∀ l : List Nat, (uploadLoopIdx env l).1 = true ↔
      ∀ i ∈ l, env.writeOk i = true := by
  intro l
  induction l with
  | nil => simp [uploadLoopIdx]
  | cons a rest ih =>
    by_cases ha : env.writeOk a = true
    · simp only [uploadLoopIdx]
      rw [if_pos ha]
      rw [show ((uploadLoopIdx env rest).1, (uploadLoopIdx env rest).2 + 1).1 =
          (uploadLoopIdx env rest).1 from rfl, ih]
      constructor
      · intro h i hi
        rcases List.mem_cons.mp hi with rfl | hi'
        · exact ha
        · exact h i hi'
      · intro h i hi
        exact h i (List.mem_cons_of_mem a hi)
    · simp only [uploadLoopIdx]
      rw [if_neg ha]
      simp only [show ((false : Bool), (1 : Nat)).1 = false from rfl,
        Bool.false_eq_true, false_iff]
      intro hcon
      exact ha (hcon a (List.mem_cons_self a rest))

theorem uploadLoopIdx_append_fail (env : CamEnv) (j : Nat)
    (hj : env.writeOk j = false) :
    ∀ (l1 l2 : List Nat), (∀ i ∈ l1, env.writeOk i = true) →
      uploadLoopIdx env (l1 ++ j :: l2) = (false, l1.length + 1) := by
  intro l1
  induction l1 with
  | nil =>
    intro l2 _
    simp [uploadLoopIdx, hj]
  | cons a rest ih =>
    intro l2 h
    have ha : env.writeOk a = true := h a (List.mem_cons_self a rest)
    simp only [List.cons_append, uploadLoopIdx, List.append_eq]
    rw [if_pos ha, ih l2 (fun i hi => h i (List.mem_cons_of_mem a hi))]
    rfl

theorem range_decomp (i wi : Nat) (hi : i < wi) :
    List.range wi = List.range i ++ i :: List.range' (i + 1) (wi - i - 1) := by
  obtain ⟨k, hk⟩ : ∃ k, wi - i = k + 1 := ⟨wi - i - 1, by omega⟩
  have h1 : List.range' 0 i ++ List.range' i (wi - i) = List.range' 0 wi := by
    have h := List.range'_append 0 i (wi - i) 1
    simp only [Nat.one_mul, Nat.zero_add] at h
    rw [h]
    congr 1
    omega
  rw [List.range_eq_range', ← h1, hk, Nat.add_sub_cancel, List.range'_succ,
    ← List.range_eq_range']

theorem uploadLoop_fail (env : CamEnv) (wi i : Nat) (hi : i < wi)
    (hfail : env.writeOk i = false) (hpre : ∀ j, j < i → env.writeOk j = true) :
    uploadLoop env wi = (false, i + 1) := by
  unfold uploadLoop
  rw [range_decomp i wi hi]
  rw [uploadLoopIdx_append_fail env i hfail (List.range i) _
    (fun j hj => hpre j (List.mem_range.mp hj))]
  rw [List.length_range]

/-- C2: for every input file of `n ≥ 0` bytes and buffer size `b > 0`, the
write loop of `FileAccess.file_access_upload` executes exactly `ceil(n/b)`
iterations and then stops (the loop is a bounded `for i in
range(write_iterations)`, modelled by a total function). -/
theorem upload_write_loop_iterations (env : CamEnv) (n b : Nat) (hb : 0 < b)
    (hok : ∀ i, env.writeOk i = true) :
    write_iterations n b = ceilDiv n b ∧
    uploadLoop env (write_iterations n b) = (true, ceilDiv n b) := by
  refine ⟨write_iterations_eq_ceilDiv n b hb, ?_⟩
  unfold uploadLoop
  rw [uploadLoopIdx_all_ok env _ (fun i _ => hok i), List.length_range,
    write_iterations_eq_ceilDiv n b hb]

/-- Witness for C2: a 7-byte file with buffer size 3 and a camera whose
write commands all succeed. -/
theorem upload_write_loop_iterations_witness :
    0 < 3 ∧
    (write_iterations 7 3 = ceilDiv 7 3 ∧
      uploadLoop
        ⟨true, true, true, 0, true, true, false, true, fun _ => true, true⟩
        (write_iterations 7 3) = (true, ceilDiv 7 3)) :=
  ⟨by decide,
    upload_write_loop_iterations
      ⟨true, true, true, 0, true, true, false, true, fun _ => true, true⟩
      7 3 (by decide) (fun _ => rfl)⟩

theorem bool_ne_false (x : Bool) (h : ¬ x = false) : x = true := by
  cases x
  · exact absurd rfl h
  · rfl

theorem bool_ne_true (x : Bool) (h : ¬ x = true) : x = false := by
  cases x
  · rfl
  · exact absurd rfl h

theorem uploadLoop_fst_iff (env : CamEnv) (wi : Nat) :
    (uploadLoop env wi).1 = true ↔ ∀ i, i < wi → env.writeOk i = true := by
  unfold uploadLoop
  rw [uploadLoopIdx_fst_iff]
  constructor
  · intro h i hi
    exact h i (List.mem_range.mpr hi)
  · intro h i hi
    exact h i (List.mem_range.mp hi)

/-- C3: `FileAccess.file_access_upload` returns `False` whenever any camera
file operation (delete of an existing file, open-for-write, a chunk write,
or close) or node check fails, and in that case issues no further write
command after the failing one (no retry of a failed chunk); it returns
`True` only when every operation succeeds.  All failure paths raise
`FileAccessError` or are caught by `except Exception`, so no exception
propagates to the caller (the model is a total function). -/
theorem file_access_upload_error_handling (env : CamEnv) (n b : Nat) :
    ((file_access_upload env n b).1 = true ↔
      (env.selectorSupported = true ∧ env.selectorNodeOk = true ∧
        env.selectorEntryOk = true ∧
        (0 < env.fileSize → env.deleteOk = true) ∧ env.openOk = true ∧
        (env.needLenIncrease = true → env.setLenOk = true) ∧
        (∀ i, i < write_iterations n b → env.writeOk i = true) ∧
        env.closeOk = true)) ∧
    (∀ i, i < write_iterations n b → env.writeOk i = false →
      (∀ j, j < i → env.writeOk j = true) →
      (file_access_upload env n b).1 = false ∧
      (file_access_upload env n b).2 ≤ i + 1) := by
  constructor
  · simp only [file_access_upload]
    split_ifs with h1 h2 h3 h4 h5 h6 h7 h8
    · apply iff_of_false (by simp)
      rintro ⟨c1, -⟩
      rw [h1] at c1
      exact Bool.false_ne_true c1
    · apply iff_of_false (by simp)
      rintro ⟨-, c2, -⟩
      rw [h2] at c2
      exact Bool.false_ne_true c2
    · apply iff_of_false (by simp)
      rintro ⟨-, -, c3, -⟩
      rw [h3] at c3
      exact Bool.false_ne_true c3
    · apply iff_of_false (by simp)
      rintro ⟨-, -, -, c4, -⟩
      have := c4 h4.1
      rw [h4.2] at this
      exact Bool.false_ne_true this
    · apply iff_of_false (by simp)
      rintro ⟨-, -, -, -, c5, -⟩
      rw [h5] at c5
      exact Bool.false_ne_true c5
    · apply iff_of_false (by simp)
      rintro ⟨-, -, -, -, -, c6, -⟩
      have := c6 h6.1
      rw [h6.2] at this
      exact Bool.false_ne_true this
    · apply iff_of_false (by simp)
      rintro ⟨-, -, -, -, -, -, c7, -⟩
      have := (uploadLoop_fst_iff env (write_iterations n b)).mpr c7
      rw [h7] at this
      exact Bool.false_ne_true this
    · apply iff_of_false (by simp)
      rintro ⟨-, -, -, -, -, -, -, c8⟩
      rw [h8] at c8
      exact Bool.false_ne_true c8
    · apply iff_of_true rfl
      refine ⟨bool_ne_false _ h1, bool_ne_false _ h2, bool_ne_false _ h3,
        ?_, bool_ne_false _ h5, ?_,
        (uploadLoop_fst_iff env (write_iterations n b)).mp
          (bool_ne_false _ h7), bool_ne_false _ h8⟩
      · intro hfs
        by_contra hdel
        exact h4 ⟨hfs, bool_ne_true _ hdel⟩
      · intro hnl
        by_contra hsl
        exact h6 ⟨hnl, bool_ne_true _ hsl⟩
  · intro i hi hf hpre
    have hloop := uploadLoop_fail env (write_iterations n b) i hi hf hpre
    simp only [file_access_upload]
    split_ifs with h1 h2 h3 h4 h5 h6 h7 h8
    · exact ⟨rfl, Nat.zero_le _⟩
    · exact ⟨rfl, Nat.zero_le _⟩
    · exact ⟨rfl, Nat.zero_le _⟩
    · exact ⟨rfl, Nat.zero_le _⟩
    · exact ⟨rfl, Nat.zero_le _⟩
    · exact ⟨rfl, Nat.zero_le _⟩
    · simp [hloop]
    · exact absurd (by rw [hloop]) h7
    · exact absurd (by rw [hloop]) h7

/-- Witness for C3: a 7-byte file with buffer size 3 (3 write iterations) on
a camera whose second write command fails: the upload reports failure and
issues no write command beyond the failing one. -/
theorem file_access_upload_error_handling_witness :
    (file_access_upload
        ⟨true, true, true, 0, true, true, false, true, fun i => i != 1, true⟩
        7 3).1 = false ∧
    (file_access_upload
        ⟨true, true, true, 0, true, true, false, true, fun i => i != 1, true⟩
        7 3).2 ≤ 1 + 1 :=
  (file_access_upload_error_handling
      ⟨true, true, true, 0, true, true, false, true, fun i => i != 1, true⟩
      7 3).2 1 (by decide) (by decide) (by decide)

/-! ### food_monitor.do_camera_stuff: classification-change filter
(food_monitor.py 103-141) -/

/-- The loop state of the food_monitor main loop:
`previous_food_status` (initialised to `10`) and `counter` (initialised to
`0`), food_monitor.py 103-104. -/
structure MonState where
  prev : Int
  counter : Nat
deriving DecidableEq

/-- food_monitor.py 129-141: the filter of one frame, given the frame's
inference class `cls` and confidence `conf`, the configured `confidence`
threshold and `delay_interval_in_frames`.  First `counter += 1` when the
class differs and the confidence is above threshold; then, when additionally
`counter > delay`, the snapshot `<root_folder>/food_status.png` is written,
`previous_food_status` becomes `cls` and `counter` resets to `0`.  Returns
the new state and whether the snapshot was written. -/
def monitorStep (thresh : ℚ) (delay : Nat) (s : MonState) (cls : Int)
    (conf : ℚ) : MonState × Bool :=
  let counter1 := if cls ≠ s.prev ∧ thresh < conf then s.counter + 1 else s.counter
  if cls ≠ s.prev ∧ thresh < conf ∧ delay < counter1 then
    (⟨cls, 0⟩, true)
  else
    (⟨s.prev, counter1⟩, false)

/-- The state after running the main loop over a list of
(class, confidence) frames. -/
def monitorRun (thresh : ℚ) (delay : Nat) : MonState → List (Int × ℚ) → MonState
  | s, [] => s
  | s, e :: rest =>
      monitorRun thresh delay (monitorStep thresh delay s e.1 e.2).1 rest

/-- The per-frame snapshot-written flags of the main loop. -/
def monitorSaves (thresh : ℚ) (delay : Nat) : MonState → List (Int × ℚ) → List Bool
  | _, [] => []
  | s, e :: rest =>
      (monitorStep thresh delay s e.1 e.2).2 ::
        monitorSaves thresh delay (monitorStep thresh delay s e.1 e.2).1 rest

/-- Number of frames whose class differs from `prev` and whose confidence
exceeds the threshold. -/
def qualifyingCount (thresh : ℚ) (prev : Int) (events : List (Int × ℚ)) : Nat :=
  (events.filter (fun e => decide (e.1 ≠ prev ∧ thresh < e.2))).length

theorem monitorStep_eq_pos (thresh : ℚ) (delay : Nat) (s : MonState)
    (cls : Int) (conf : ℚ) (hq : cls ≠ s.prev ∧ thresh < conf)
    (hd : delay < s.counter + 1) :
    monitorStep thresh delay s cls conf = (⟨cls, 0⟩, true) := by
  simp only [monitorStep]
  rw [if_pos hq, if_pos ⟨hq.1, hq.2, hd⟩]

theorem monitorStep_eq_mid (thresh : ℚ) (delay : Nat) (s : MonState)
    (cls : Int) (conf : ℚ) (hq : cls ≠ s.prev ∧ thresh < conf)
    (hd : ¬ delay < s.counter + 1) :
    monitorStep thresh delay s cls conf = (⟨s.prev, s.counter + 1⟩, false) := by
  simp only [monitorStep]
  rw [if_pos hq, if_neg (fun hcon => hd hcon.2.2)]

theorem monitorStep_eq_neg (thresh : ℚ) (delay : Nat) (s : MonState)
    (cls : Int) (conf : ℚ) (hq : ¬ (cls ≠ s.prev ∧ thresh < conf)) :
    monitorStep thresh delay s cls conf = (⟨s.prev, s.counter⟩, false) := by
  simp only [monitorStep]
  rw [if_neg hq, if_neg (fun hcon => hq ⟨hcon.1, hcon.2.1⟩)]

theorem monitorRun_no_save (thresh : ℚ) (delay : Nat) :
    ∀ (events : List (Int × ℚ)) (s : MonState),
      (∀ flag ∈ monitorSaves thresh delay s events, flag = false) →
      monitorRun thresh delay s events =
        ⟨s.prev, s.counter + qualifyingCount thresh s.prev events⟩ := by
  intro events
  induction events with
  | nil =>
    intro s _
    simp [monitorRun, qualifyingCount]
  | cons e rest ih =>
    intro s hns
    have hhead : (monitorStep thresh delay s e.1 e.2).2 = false := by
      apply hns
      simp only [monitorSaves]
      exact List.mem_cons_self _ _
    have htail : ∀ flag ∈
        monitorSaves thresh delay (monitorStep thresh delay s e.1 e.2).1 rest,
        flag = false := by
      intro flag hflag
      apply hns
      simp only [monitorSaves]
      exact List.mem_cons_of_mem _ hflag
    by_cases hq : e.1 ≠ s.prev ∧ thresh < e.2
    · by_cases hd : delay < s.counter + 1
      · rw [monitorStep_eq_pos thresh delay s e.1 e.2 hq hd] at hhead
        exact absurd hhead (by simp)
      · have hstep := monitorStep_eq_mid thresh delay s e.1 e.2 hq hd
        rw [hstep] at htail
        simp only [monitorRun]
        rw [hstep]
        rw [ih ⟨s.prev, s.counter + 1⟩ htail]
        simp only [qualifyingCount, List.filter_cons, decide_eq_true_eq,
          if_pos hq]
        simp only [List.length_cons]
        congr 1
        omega
    · have hstep := monitorStep_eq_neg thresh delay s e.1 e.2 hq
      rw [hstep] at htail
      simp only [monitorRun]
      rw [hstep]
      rw [ih ⟨s.prev, s.counter⟩ htail]
      simp only [qualifyingCount, List.filter_cons, decide_eq_true_eq,
        if_neg hq]

/-- C4: in the food_monitor main loop, `food_status.png` is written on a
frame iff the frame's class differs from the stored previous food status,
its confidence exceeds the configured threshold, and the running count of
such frames (including this one) exceeds the configured delay interval; on a
save the previous status becomes the frame's class and the counter resets to
`0`; otherwise the previous status is kept and the counter counts exactly
the qualifying frames (conjunct four: over any save-free stretch the counter
grows by precisely the number of differing above-threshold frames). -/
theorem food_monitor_snapshot_filter (thresh : ℚ) (delay : Nat) (s : MonState)
    (cls : Int) (conf : ℚ) (events : List (Int × ℚ)) :
    ((monitorStep thresh delay s cls conf).2 = true ↔
      (cls ≠ s.prev ∧ thresh < conf ∧ delay < s.counter + 1)) ∧
    ((monitorStep thresh delay s cls conf).2 = true →
      (monitorStep thresh delay s cls conf).1 = ⟨cls, 0⟩) ∧
    ((monitorStep thresh delay s cls conf).2 = false →
      (monitorStep thresh delay s cls conf).1 =
        ⟨s.prev, s.counter +
          (if cls ≠ s.prev ∧ thresh < conf then 1 else 0)⟩) ∧
    ((∀ flag ∈ monitorSaves thresh delay s events, flag = false) →
      monitorRun thresh delay s events =
        ⟨s.prev, s.counter + qualifyingCount thresh s.prev events⟩) := by
  refine ⟨?_, ?_, ?_, monitorRun_no_save thresh delay events s⟩
  · by_cases hq : cls ≠ s.prev ∧ thresh < conf
    · by_cases hd : delay < s.counter + 1
      · rw [monitorStep_eq_pos thresh delay s cls conf hq hd]
        exact iff_of_true rfl ⟨hq.1, hq.2, hd⟩
      · rw [monitorStep_eq_mid thresh delay s cls conf hq hd]
        exact iff_of_false (by simp) (fun hcon => hd hcon.2.2)
    · rw [monitorStep_eq_neg thresh delay s cls conf hq]
      exact iff_of_false (by simp) (fun hcon => hq ⟨hcon.1, hcon.2.1⟩)
  · intro hsv
    by_cases hq : cls ≠ s.prev ∧ thresh < conf
    · by_cases hd : delay < s.counter + 1
      · rw [monitorStep_eq_pos thresh delay s cls conf hq hd]
      · rw [monitorStep_eq_mid thresh delay s cls conf hq hd] at hsv
        exact absurd hsv (by simp)
    · rw [monitorStep_eq_neg thresh delay s cls conf hq] at hsv
      exact absurd hsv (by simp)
  · intro hsv
    by_cases hq : cls ≠ s.prev ∧ thresh < conf
    · by_cases hd : delay < s.counter + 1
      · rw [monitorStep_eq_pos thresh delay s cls conf hq hd] at hsv
        exact absurd hsv (by simp)
      · rw [monitorStep_eq_mid thresh delay s cls conf hq hd, if_pos hq]
    · rw [monitorStep_eq_neg thresh delay s cls conf hq, if_neg hq]
      simp

/-- Witness for C4: with threshold 1/2 and delay 1, a frame of class 3 at
confidence 3/4 arriving in state (previous status 10, counter 1) triggers a
save. -/
theorem food_monitor_snapshot_filter_witness :
    (monitorStep (1/2 : ℚ) 1 ⟨10, 1⟩ 3 (3/4 : ℚ)).2 = true ↔
      ((3 : Int) ≠ (⟨10, 1⟩ : MonState).prev ∧ (1/2 : ℚ) < 3/4 ∧
        1 < (⟨10, 1⟩ : MonState).counter + 1) :=
  (food_monitor_snapshot_filter (1/2) 1 ⟨10, 1⟩ 3 (3/4) []).1

/-! ### food_monitor.do_camera_stuff: the unbound locals cls and conf
(food_monitor.py 105-134) -/

/-- food_monitor.py 105-134: the first iteration of the main loop up to and
including the filter condition, under Python scoping: the locals `cls` and
`conf` are assigned only inside the `if enable_camera_inference:` branch
(line 123), yet line 130 reads both unconditionally; reading an unassigned
local raises `NameError` (`UnboundLocalError`). -/
def firstIterationFilter (enableInference : Bool) (inferCls : Int)
    (inferConf : ℚ) (thresh : ℚ) (delay : Nat) (s : MonState) :
    Except String (MonState × Bool) :=
  let clsVar : Option Int := if enableInference then some inferCls else none
  let confVar : Option ℚ := if enableInference then some inferConf else none
  match clsVar, confVar with
  | some cls, some conf => Except.ok (monitorStep thresh delay s cls conf)
  | _, _ => Except.error "NameError"

/-- C9: when camera inference is disabled in the configuration (or its setup
failed and it was turned off), the first iteration of the food_monitor main
loop reads `cls` and `conf` before any assignment and raises `NameError`;
the loop body is well-defined exactly when camera inference is enabled. -/
theorem food_monitor_disabled_inference_name_error (enableInference : Bool)
    (inferCls : Int) (inferConf : ℚ) (thresh : ℚ) (delay : Nat) (s : MonState) :
    firstIterationFilter enableInference inferCls inferConf thresh delay s =
        Except.error "NameError" ↔ enableInference = false := by
  cases enableInference
  · simp [firstIterationFilter]
  · simp [firstIterationFilter]

/-- Witness for C9 at a concrete input: inference disabled on the first frame. -/
theorem food_monitor_disabled_inference_name_error_witness :
    firstIterationFilter false 0 0 0 0 ⟨10, 0⟩ =
        Except.error "NameError" ↔ (false : Bool) = false :=
  food_monitor_disabled_inference_name_error false 0 0 0 0 ⟨10, 0⟩

/-! ### DataHandler.do_camera_stuff: keyboard dispatch
(DataHandler.py 127-172) -/

/-- The externally visible effects of handling one `cv2.waitKey(1)` result. -/
structure KeyOutcome (α : Type) where
  /-- the `break` on Escape (DataHandler.py 134-136). -/
  exits : Bool
  /-- the HTTP POST performed, if any: endpoint and body
  (DataHandler.py 137-158). -/
  post : Option (String × String)
  /-- the image files written: destination path and the frame written
  (DataHandler.py 163-167). -/
  saves : List (String × α)
deriving DecidableEq

/-- DataHandler.py 138: the home-automation (openHAB) endpoint. -/
def openhabUrl : String := "http://192.168.1.75:8080/rest/items/TestSwitch001"

/-- DataHandler.py 127-172: the dispatch on the key code `lame`.  `img` is
the full-resolution frame, `displayed` the resized copy shown on screen;
label saves write `img`, never `displayed`, under
`folders[label]/<stamp>.<ext>`.  Escape is code 27, F1 is 0xBE = 190,
F2 is 0xBF = 191, and `-1` means no key was pressed. -/
def handleKey {α : Type} (labels : List Char) (folders : Char → String)
    (ext stamp : String) (img displayed : α) (lame : Int) : KeyOutcome α :=
  if lame = 27 then
    ⟨true, none, []⟩
  else if lame = 190 ∨ lame = 191 then
    ⟨false, some (openhabUrl, if lame = 190 then "ON" else "OFF"), []⟩
  else if lame = -1 then
    ⟨false, none, []⟩
  else
    ⟨false, none,
      (labels.filter (fun ch => decide (lame = (ch.toNat : Int)))).map
        (fun ch => (folders ch ++ "/" ++ stamp ++ "." ++ ext, img))⟩

/-- C5: key dispatch of the DataHandler display loop: Escape (27) exits; F1
(0xBE) POSTs body "ON" and F2 (0xBF) body "OFF" to the openHAB endpoint
without exiting or saving; a key equal to a configured label character
writes the full-resolution (un-resized) frame `img` into that label's folder
under the timestamped filename; no key (-1) and any other key cause no save
and no POST. -/
theorem datahandler_key_dispatch {α : Type} (labels : List Char)
    (folders : Char → String) (ext stamp : String) (img displayed : α) :
    (handleKey labels folders ext stamp img displayed 27 =
      ⟨true, none, []⟩) ∧
    (handleKey labels folders ext stamp img displayed 190 =
      ⟨false, some (openhabUrl, "ON"), []⟩) ∧
    (handleKey labels folders ext stamp img displayed 191 =
      ⟨false, some (openhabUrl, "OFF"), []⟩) ∧
    (handleKey labels folders ext stamp img displayed (-1) =
      ⟨false, none, []⟩) ∧
    (∀ lame : Int, lame ≠ 27 → lame ≠ 190 → lame ≠ 191 → lame ≠ -1 →
      ∀ ch ∈ labels, lame = (ch.toNat : Int) →
        (folders ch ++ "/" ++ stamp ++ "." ++ ext, img) ∈
            (handleKey labels folders ext stamp img displayed lame).saves ∧
          (handleKey labels folders ext stamp img displayed lame).exits = false ∧
          (handleKey labels folders ext stamp img displayed lame).post = none) ∧
    (∀ lame : Int, lame ≠ 27 → lame ≠ 190 → lame ≠ 191 →
      (∀ ch ∈ labels, lame ≠ (ch.toNat : Int)) →
      handleKey labels folders ext stamp img displayed lame =
        ⟨false, none, []⟩) := by
  refine ⟨?_, ?_, ?_, ?_, ?_, ?_⟩
  · norm_num [handleKey]
  · norm_num [handleKey]
  · norm_num [handleKey]
  · norm_num [handleKey]
  · intro lame h27 h190 h191 hm1 ch hch hcode
    simp only [handleKey]
    rw [if_neg h27, if_neg (by rintro (h | h) <;> [exact h190 h; exact h191 h]),
      if_neg hm1]
    refine ⟨?_, rfl, rfl⟩
    apply List.mem_map.mpr
    refine ⟨ch, ?_, rfl⟩
    exact List.mem_filter.mpr ⟨hch, by simpa using hcode⟩
  · intro lame h27 h190 h191 hall
    simp only [handleKey]
    rw [if_neg h27, if_neg (by rintro (h | h) <;> [exact h190 h; exact h191 h])]
    by_cases hm1 : lame = -1
    · rw [if_pos hm1]
    · rw [if_neg hm1]
      have hfil :
          labels.filter (fun ch => decide (lame = (ch.toNat : Int))) = [] := by
        apply List.filter_eq_nil_iff.mpr
        intro ch hch
        simpa using hall ch hch
      rw [hfil]
      rfl

/-- Witness for C5: label list `['a']` and key code 97 = ord a. -/
theorem datahandler_key_dispatch_witness :
    ((fun _ => "data") 'a' ++ "/" ++ "20240101_120000" ++ "." ++ "png",
        (0 : Nat)) ∈
      (handleKey ['a'] (fun _ => "data") "png" "20240101_120000"
        (0 : Nat) (1 : Nat) 97).saves ∧
    (handleKey ['a'] (fun _ => "data") "png" "20240101_120000"
        (0 : Nat) (1 : Nat) 97).exits = false ∧
    (handleKey ['a'] (fun _ => "data") "png" "20240101_120000"
        (0 : Nat) (1 : Nat) 97).post = none :=
  (datahandler_key_dispatch ['a'] (fun _ => "data") "png" "20240101_120000"
      (0 : Nat) (1 : Nat)).2.2.2.2.1 97 (by decide) (by decide) (by decide)
    (by decide) 'a' (List.mem_cons_self _ _) (by decide)

/-! ### Camera.convert_raw_image_8bit_to_10bit (Camera.py 521-534) -/

/-- Camera.py 530-534: `astype('uint16')` then `<< 2` on every 8-bit sample,
one 16-bit word written per input byte (`tofile`); the Python function
always returns `True`.  The `uint16` container is modelled by the explicit
`% 2^16`. -/
def convert_raw_image_8bit_to_10bit (input : List Nat) : List Nat × Bool :=
  (input.map (fun v => (v <<< 2) % 65536), true)

/-- C6: `convert_raw_image_8bit_to_10bit` maps every 8-bit sample `v` to the
16-bit word `v*4`, writes exactly one word per input byte, and every word is
a multiple of 4 in `[0, 1020]`, i.e. fits in 10 bits. -/
theorem convert_8bit_to_10bit_words (input : List Nat)
    (h8 : ∀ v ∈ input, v < 256) :
    (convert_raw_image_8bit_to_10bit input).1.length = input.length ∧
    (∀ i, i < input.length →
      (convert_raw_image_8bit_to_10bit input).1.getD i 0 =
        input.getD i 0 * 4) ∧
    (∀ w ∈ (convert_raw_image_8bit_to_10bit input).1,
      w % 4 = 0 ∧ w ≤ 1020) := by
  refine ⟨by simp [convert_raw_image_8bit_to_10bit], ?_, ?_⟩
  · intro i hi
    simp only [convert_raw_image_8bit_to_10bit]
    rw [List.getD_eq_getElem?_getD, List.getD_eq_getElem?_getD,
      List.getElem?_map, List.getElem?_eq_getElem hi]
    have hv : input[i] < 256 := h8 _ (List.getElem_mem hi)
    simp only [Option.map_some', Option.getD_some]
    rw [Nat.shiftLeft_eq]
    norm_num
    omega
  · intro w hw
    simp only [convert_raw_image_8bit_to_10bit, List.mem_map] at hw
    obtain ⟨v, hv, rfl⟩ := hw
    have hv' : v < 256 := h8 v hv
    have heq : (v <<< 2) % 65536 = v * 4 := by
      rw [Nat.shiftLeft_eq]
      norm_num
      omega
    rw [heq]
    exact ⟨Nat.mul_mod_left v 4, by omega⟩

/-- Witness for C6 at a concrete 3-byte raster. -/
theorem convert_8bit_to_10bit_words_witness :
    (∀ v ∈ [0, 7, 255], v < 256) ∧
    ((convert_raw_image_8bit_to_10bit [0, 7, 255]).1.length =
        List.length [0, 7, 255] ∧
      (∀ i, i < List.length [0, 7, 255] →
        (convert_raw_image_8bit_to_10bit [0, 7, 255]).1.getD i 0 =
          List.getD [0, 7, 255] i 0 * 4) ∧
      (∀ w ∈ (convert_raw_image_8bit_to_10bit [0, 7, 255]).1,
        w % 4 = 0 ∧ w ≤ 1020)) :=
  ⟨by decide, convert_8bit_to_10bit_words [0, 7, 255] (by decide)⟩

/-! ### Camera.disable_camera_image_injection (Camera.py 333-399) and
Camera.configure_camera_for_image_injection (Camera.py 415-493) -/

/-- A Python return value of the configuration routines: `None` (falling off
the end of the function) or a boolean. -/
inductive PyRet where
  | pynone : PyRet
  | pybool : Bool → PyRet
deriving DecidableEq

/-- Python truthiness of a `PyRet`: `None` and `False` are falsy. -/
def isTruthy : PyRet → Bool
  | .pynone => false
  | .pybool b => b

/-- Outcomes of the get node / check availability / set value guards of the
two injection-configuration routines.  Each field is one
`IsAvailable`/`IsWritable` (node) or `IsAvailable`/`IsReadable` (entry)
check; `false` also covers an exception raised at that point. -/
structure InjectionCfgEnv where
  /-- TestPatternGeneratorSelector node available and writable. -/
  tpgsNodeOk : Bool
  /-- the PipelineStart entry available and readable. -/
  tpgsEntryOk : Bool
  /-- TestPattern node available and writable. -/
  tpNodeOk : Bool
  /-- the target TestPattern entry (Off / InjectedImage) available and
  readable. -/
  tpEntryOk : Bool
  /-- InjectedWidth node available and writable. -/
  injWidthOk : Bool
  /-- Width node available and writable. -/
  widthOk : Bool
  /-- InjectedHeight node available and writable. -/
  injHeightOk : Bool
  /-- Height node available and writable. -/
  heightOk : Bool
deriving DecidableEq

/-- Camera.py 415-493: `configure_camera_for_image_injection` — the Python
return value together with the names of the nodes on which a
`SetValue`/`SetIntValue` was performed.  Each failed check prints and
`return False`; after the final `SetValue` the function falls off the end
(its `finally` is `pass`), i.e. returns `None`.  The `width`/`height`
arguments only feed the set calls and cannot change the control flow, so
their values are omitted. -/
def configure_camera_for_image_injection (env : InjectionCfgEnv) :
    PyRet × List String :=
  if env.tpgsNodeOk = false then (.pybool false, [])
  else if env.tpgsEntryOk = false then (.pybool false, [])
  else if env.tpNodeOk = false then
    (.pybool false, ["TestPatternGeneratorSelector"])
  else if env.tpEntryOk = false then
    (.pybool false, ["TestPatternGeneratorSelector"])
  else if env.injWidthOk = false then
    (.pybool false, ["TestPatternGeneratorSelector", "TestPattern"])
  else if env.widthOk = false then
    (.pybool false,
      ["TestPatternGeneratorSelector", "TestPattern", "InjectedWidth"])
  else if env.injHeightOk = false then
    (.pybool false,
      ["TestPatternGeneratorSelector", "TestPattern", "InjectedWidth",
        "Width"])
  else if env.heightOk = false then
    (.pybool false,
      ["TestPatternGeneratorSelector", "TestPattern", "InjectedWidth",
        "Width", "InjectedHeight"])
  else
    (.pynone,
      ["TestPatternGeneratorSelector", "TestPattern", "InjectedWidth",
        "Width", "InjectedHeight", "Height"])

/-- Camera.py 338-396: the try/except body of
`disable_camera_image_injection`: the value the body is about to return
(before the `finally` clause runs) and the nodes set. -/
def disable_injection_try (env : InjectionCfgEnv) : PyRet × List String :=
  if env.tpgsNodeOk = false then (.pybool false, [])
  else if env.tpgsEntryOk = false then (.pybool false, [])
  else if env.tpNodeOk = false then
    (.pybool false, ["TestPatternGeneratorSelector"])
  else if env.tpEntryOk = false then
    (.pybool false, ["TestPatternGeneratorSelector"])
  else if env.widthOk = false then
    (.pybool false, ["TestPatternGeneratorSelector", "TestPattern"])
  else if env.heightOk = false then
    (.pybool false, ["TestPatternGeneratorSelector", "TestPattern", "Width"])
  else
    (.pynone,
      ["TestPatternGeneratorSelector", "TestPattern", "Width", "Height"])

/-- Camera.py 397-399: the `finally` block runs `self.camera.DeInit()` and
then `return True`; a `return` in a `finally` clause replaces whatever the
`try`/`except` body was returning (and swallows any pending exception). -/
def finallyReturnTrue (tryResult : PyRet) : PyRet :=
  PyRet.pybool true

/-- Camera.py 333-399: `disable_camera_image_injection`. -/
def disable_camera_image_injection (env : InjectionCfgEnv) :
    PyRet × List String :=
  (finallyReturnTrue (disable_injection_try env).1,
    (disable_injection_try env).2)

/-- C7 (code bug): run `disable_camera_image_injection` with every check
failing — already the first TestPatternGeneratorSelector check fails.  The
routine performs no set call (second conjunct), its try body was about to
report `False` (third conjunct), yet the call returns `True` (first
conjunct): the `return True` in the `finally` block overrides the
`return False` of the failed check, contradicting the claim and the
docstring "false if unsuccessful". -/
theorem disable_injection_returns_true_despite_failed_check :
    (disable_camera_image_injection
        ⟨false, false, false, false, false, false, false, false⟩).1 =
      PyRet.pybool true ∧
    (disable_camera_image_injection
        ⟨false, false, false, false, false, false, false, false⟩).2 = [] ∧
    (disable_injection_try
        ⟨false, false, false, false, false, false, false, false⟩).1 =
      PyRet.pybool false :=
  ⟨rfl, rfl, rfl⟩

/-! ### Camera.inject_mono8_image (Camera.py 600-626) -/

/-- Camera.py 600-626: `inject_mono8_image`.
`convert_raw_image_8bit_to_10bit` always returns `True`, so its guard never
fires; a failed `inject_10bit_image` (`injectOk = false`) only prints a dot
and does not return; the function then returns whatever
`configure_camera_for_image_injection` returns. -/
def inject_mono8_image (env : InjectionCfgEnv) (injectOk : Bool)
    (img : List Nat) : PyRet :=
  if (convert_raw_image_8bit_to_10bit img).2 = false then
    PyRet.pybool false
  else
    (configure_camera_for_image_injection env).1

/-- C8: `inject_mono8_image` never returns `True`: on the success path it
returns the result of `configure_camera_for_image_injection`, which falls
off the end and returns `None` when configuration succeeds and `False` only
on a failed check or exception, so a caller testing the documented boolean
result always observes a falsy value. -/
theorem inject_mono8_image_never_true (env : InjectionCfgEnv)
    (injectOk : Bool) (img : List Nat) :
    isTruthy (inject_mono8_image env injectOk img) = false ∧
    inject_mono8_image env injectOk img ≠ PyRet.pybool true := by
  have hconf : isTruthy (configure_camera_for_image_injection env).1 = false := by
    simp only [configure_camera_for_image_injection]
    split_ifs <;> rfl
  have hres : inject_mono8_image env injectOk img =
      (configure_camera_for_image_injection env).1 := by
    simp [inject_mono8_image, convert_raw_image_8bit_to_10bit]
  refine ⟨by rw [hres]; exact hconf, ?_⟩
  rw [hres]
  intro hcon
  rw [hcon] at hconf
  simp [isTruthy] at hconf

/-- Witness for C8 at a concrete input: all checks pass, the injection
itself succeeded, yet the result is falsy. -/
theorem inject_mono8_image_never_true_witness :
    isTruthy (inject_mono8_image
        ⟨true, true, true, true, true, true, true, true⟩ true [5]) = false ∧
    inject_mono8_image ⟨true, true, true, true, true, true, true, true⟩
        true [5] ≠ PyRet.pybool true :=
  inject_mono8_image_never_true
    ⟨true, true, true, true, true, true, true, true⟩ true [5]

/-! ### Camera.get_bounding_box_results_from_image (Camera.py 962-982) -/

/-- The PySpin inference box types (`INFERENCE_BOX_TYPE_*`). -/
inductive BoxKind where
  | rectangle : BoxKind
  | circle : BoxKind
deriving DecidableEq

/-- One box of the chunk data's `InferenceBoundingBoxResult`.  Coordinates
are modelled as rationals (the Python code divides them by the row/column
counts). -/
structure InferenceBox where
  boxType : BoxKind
  classId : Nat
  confidence : ℚ
  topLeftXCoord : ℚ
  topLeftYCoord : ℚ
  bottomRightXCoord : ℚ
  bottomRightYCoord : ℚ
deriving DecidableEq

/-- One tuple of the returned `result` list (Camera.py 974-979). -/
structure BBoxEntry where
  classId : Nat
  confidence : ℚ
  tlx : ℚ
  tly : ℚ
  brx : ℚ
  bry : ℚ
deriving DecidableEq

/-- `np.clip(x, lo, hi)`. -/
def npClip (x lo hi : ℚ) : ℚ := min (max x lo) hi

/-- Camera.py 974-979: the tuple appended for a rectangle box on an image
with `r` rows and `c` columns. -/
def boxEntry (r c : ℚ) (b : InferenceBox) : BBoxEntry :=
  ⟨b.classId, b.confidence,
    npClip (b.topLeftXCoord / c) 0 1,
    npClip (b.topLeftYCoord / r) 0 1,
    npClip (b.bottomRightXCoord / c) 0 1,
    npClip (b.bottomRightYCoord / r) 0 1⟩

/-- Camera.py 962-982: the loop over `GetBoxAt(i)`, which `continue`s past
boxes whose type is not `INFERENCE_BOX_TYPE_RECTANGLE` and appends
`boxEntry` for the others. -/
def get_bounding_box_results_from_image (r c : ℚ) :
    List InferenceBox → List BBoxEntry
  | [] => []
  | b :: rest =>
      if b.boxType ≠ BoxKind.rectangle then
        get_bounding_box_results_from_image r c rest
      else
        boxEntry r c b :: get_bounding_box_results_from_image r c rest

theorem npClip_unit_bounds (x : ℚ) : 0 ≤ npClip x 0 1 ∧ npClip x 0 1 ≤ 1 :=
  ⟨le_min (le_max_right x 0) zero_le_one, min_le_right _ _⟩

theorem mem_bounding_box_results (r c : ℚ) :
    ∀ (boxes : List InferenceBox) (e : BBoxEntry),
      e ∈ get_bounding_box_results_from_image r c boxes →
      ∃ b ∈ boxes, b.boxType = BoxKind.rectangle ∧ e = boxEntry r c b := by
  intro boxes
  induction boxes with
  | nil =>
    intro e he
    simp [get_bounding_box_results_from_image] at he
  | cons b rest ih =>
    intro e he
    simp only [get_bounding_box_results_from_image] at he
    by_cases hbt : b.boxType = BoxKind.rectangle
    · rw [if_neg (fun hcon => hcon hbt)] at he
      rcases List.mem_cons.mp he with rfl | he'
      · exact ⟨b, List.mem_cons_self b rest, hbt, rfl⟩
      · obtain ⟨b', hb', ht', heq⟩ := ih e he'
        exact ⟨b', List.mem_cons_of_mem b hb', ht', heq⟩
    · rw [if_pos hbt] at he
      obtain ⟨b', hb', ht', heq⟩ := ih e he
      exact ⟨b', List.mem_cons_of_mem b hb', ht', heq⟩

/-- C10: every tuple returned by `get_bounding_box_results_from_image` comes
from a rectangle-type box (boxes of any other type are skipped, never
included), and each of its four normalised coordinates is clipped into the
closed interval `[0, 1]`. -/
theorem bounding_box_results_clipped (r c : ℚ) (boxes : List InferenceBox)
    (e : BBoxEntry) (he : e ∈ get_bounding_box_results_from_image r c boxes) :
    (∃ b ∈ boxes, b.boxType = BoxKind.rectangle ∧ e = boxEntry r c b) ∧
    0 ≤ e.tlx ∧ e.tlx ≤ 1 ∧ 0 ≤ e.tly ∧ e.tly ≤ 1 ∧
    0 ≤ e.brx ∧ e.brx ≤ 1 ∧ 0 ≤ e.bry ∧ e.bry ≤ 1 := by
  obtain ⟨b, hb, ht, heq⟩ := mem_bounding_box_results r c boxes e he
  subst heq
  refine ⟨⟨b, hb, ht, rfl⟩, ?_⟩
  simp only [boxEntry]
  exact ⟨(npClip_unit_bounds _).1, (npClip_unit_bounds _).2,
    (npClip_unit_bounds _).1, (npClip_unit_bounds _).2,
    (npClip_unit_bounds _).1, (npClip_unit_bounds _).2,
    (npClip_unit_bounds _).1, (npClip_unit_bounds _).2⟩

/-- Witness for C10: a 2x4 image with one rectangle box whose bottom-right
corner lies outside the image. -/
theorem bounding_box_results_clipped_witness :
    (∃ b ∈ [(⟨BoxKind.rectangle, 1, 1/2, 1, 2, 3, 4⟩ : InferenceBox)],
        b.boxType = BoxKind.rectangle ∧
        boxEntry 2 4 ⟨BoxKind.rectangle, 1, 1/2, 1, 2, 3, 4⟩ =
          boxEntry 2 4 b) ∧
    0 ≤ (boxEntry 2 4 ⟨BoxKind.rectangle, 1, 1/2, 1, 2, 3, 4⟩).tlx ∧
    (boxEntry 2 4 ⟨BoxKind.rectangle, 1, 1/2, 1, 2, 3, 4⟩).tlx ≤ 1 ∧
    0 ≤ (boxEntry 2 4 ⟨BoxKind.rectangle, 1, 1/2, 1, 2, 3, 4⟩).tly ∧
    (boxEntry 2 4 ⟨BoxKind.rectangle, 1, 1/2, 1, 2, 3, 4⟩).tly ≤ 1 ∧
    0 ≤ (boxEntry 2 4 ⟨BoxKind.rectangle, 1, 1/2, 1, 2, 3, 4⟩).brx ∧
    (boxEntry 2 4 ⟨BoxKind.rectangle, 1, 1/2, 1, 2, 3, 4⟩).brx ≤ 1 ∧
    0 ≤ (boxEntry 2 4 ⟨BoxKind.rectangle, 1, 1/2, 1, 2, 3, 4⟩).bry ∧
    (boxEntry 2 4 ⟨BoxKind.rectangle, 1, 1/2, 1, 2, 3, 4⟩).bry ≤ 1 :=
  bounding_box_results_clipped 2 4
    [⟨BoxKind.rectangle, 1, 1/2, 1, 2, 3, 4⟩]
    (boxEntry 2 4 ⟨BoxKind.rectangle, 1, 1/2, 1, 2, 3, 4⟩)
    (List.mem_cons_self _ _)

end SmartPetBowl
